import Mathlib

/-!
# crony scheduler: registry and dispatch/retry engine

A shallow embedding of `scheduler/scheduler.go`.

* The registry (`scheduler`, `New`, `Create`, `Find`, `Update`, `Delete`,
  `ScheduleAll`) is embedded as explicit state passing over the struct's two
  fields; the locking of each method is embedded apart, as the sequence of its
  lock and map steps.
* The retry closure `runJob` is embedded as a function producing the trace of
  the effects of one run (http requests, log lines, sleeps).
* The timer engine `github.com/robfig/cron` and the record `models.Event` are
  imported by the source but are not part of it; they are modelled in the
  namespaces `cron` and `models` from the interface the specification lists.
-/

namespace Crony

/-! ## Collaborators that the source imports -/

namespace models

/-- Modelled from the spec: the record `models.Event` (its declaration is not in
the source file). The fields are the ones `scheduler.go` reads. `Id` is a Go
`uint`, `MaxRetries` is a Go `int` (it is passed as the `retries int` argument
of `runJob`), `RetryTimeout` is the integer number of seconds that the source
converts with `time.Duration(cron.RetryTimeout) * time.Second`. Both integer
fields are taken as 64-bit (`int` on a 64-bit target); the theorems state the
range where it matters. -/
structure Event where
  Id : Nat
  Expression : String
  Url : String
  MaxRetries : Int
  RetryTimeout : Int
  deriving DecidableEq, Repr

end models

open models

namespace cron

/-- Modelled from the spec: one registration held by the timer engine, made by
`AddFunc(expression, callback)`. `Spec` is the accepted schedule expression.
The callback built by `Create` is the closure `func() { runJob(runJob,
cron.MaxRetries) }`, which captures the event `cron`; `Job` is that captured
event (the closure reads `Url`, `MaxRetries` and `RetryTimeout` from it). -/
structure Entry where
  Spec : String
  Job : Event
  deriving DecidableEq, Repr

/-- Modelled from the spec: the timer engine object `cron.Cron` with the three
operations the specification lists for it (`Start`, `AddFunc`, `Stop`). It holds
the registrations added so far and whether it is processing ticks. -/
structure Cron where
  entries : List Entry
  running : Bool
  deriving DecidableEq, Repr

/-- Modelled from the spec: `cron.New()`, an engine with no registration that has
not been started. -/
def New : Cron := { entries := [], running := false }

/-- Modelled from the spec: `Start()`, begin processing scheduled ticks. -/
def Cron.Start (c : Cron) : Cron := { c with running := true }

/-- Modelled from the spec: `Stop()`, halt further ticks. In the source the
handle on which `Stop` is called has the engine's own type `*cron.Cron`, so the
call halts the ticks of the object it is called on. Registrations are kept, and
nothing but `Start` resumes the ticks. -/
def Cron.Stop (c : Cron) : Cron := { c with running := false }

/-- Modelled from the spec: `AddFunc(expression, callback) → error`. The
expression parser belongs to the engine and is the parameter `valid`; a rejected
expression is reported (`true` in the second component stands for a non-nil
error) and registers nothing, an accepted one appends the registration. -/
def Cron.AddFunc (valid : String → Bool) (c : Cron) (spec : String) (cmd : Event) :
    Cron × Bool :=
  if valid spec then ({ c with entries := c.entries ++ [{ Spec := spec, Job := cmd }] }, false)
  else (c, true)

/-- Modelled from the spec: the engine "invokes the callback at each matching
wall-clock instant until stopped". `due spec t` says whether the schedule
`spec` matches the instant `t` (calendar evaluation belongs to the engine);
`tick` lists the registrations whose callback the engine invokes at `t`. -/
def Cron.tick (due : String → Nat → Bool) (c : Cron) (t : Nat) : List Entry :=
  if c.running then c.entries.filter (fun en => due en.Spec t) else []

end cron

/-! ## The registry -/

/-- The error values a registry operation returns: the package's own
`ErrEventNotExist`, and the error values of the event store, which `ScheduleAll`
passes on as they are (`x` names the value). -/
inductive Error where
  | ErrEventNotExist
  | repoErr (x : Nat)
  deriving DecidableEq, Repr

/-- A value of Go type `*cron.Cron` as it occurs in the registry: the nil
pointer, or the address of the one engine that `New` allocates (`s.Cron`). -/
inductive CronPtr where
  | nil
  | engine
  deriving DecidableEq, Repr

/-- The struct `scheduler`. `Kv` is the Go map (`none` = key absent, `some p` =
key present with the pointer `p`); `Cron` is the engine that the field `Cron`
points to. The embedded `sync.RWMutex` has no sequential content. -/
structure scheduler where
  Kv : Nat → Option CronPtr
  Cron : cron.Cron

/-- The outcome of a call that may dereference a nil pointer: it returns, or the
goroutine panics. -/
inductive Res (α : Type) where
  | ret (a : α)
  | nilDeref

/-- The value a call returned, when it returned. -/
def Res.toOption {α : Type} : Res α → Option α
  | Res.ret a => some a
  | Res.nilDeref => none

/-- Source `New`: an empty map and a fresh engine, which is started. -/
def New : scheduler :=
  { Kv := fun _ => none, Cron := cron.New.Start }

/-- Source `Create`. The result of `AddFunc` is dropped, the map entry for
`cron.Id` is set to the pointer `s.Cron`, and the named result `err` is never
assigned, so it is returned as nil (`none`). -/
def Create (valid : String → Bool) (s : scheduler) (cron : Event) :
    Option Error × scheduler :=
  let added := s.Cron.AddFunc valid cron.Expression cron
  (none, { Kv := fun k => if k = cron.Id then some CronPtr.engine else s.Kv k,
           Cron := added.1 })

/-- Source `Find`: the map lookup `cron, found := s.Kv[id]`; reads only. -/
def Find (s : scheduler) (id : Nat) : CronPtr × Option Error :=
  match s.Kv id with
  | none => (CronPtr.nil, some Error.ErrEventNotExist)
  | some p => (p, none)

/-- Source `Delete`. The value receiver copies the struct, but the map and the
engine pointer are shared with the original. A present key whose pointer is nil
makes `s.Kv[id].Stop()` dereference nil. Otherwise the engine behind the pointer
is stopped and the entry is overwritten with nil (`s.Kv[id] = nil`); the key
stays in the map. -/
def Delete (s : scheduler) (id : Nat) : Res (Option Error × scheduler) :=
  match s.Kv id with
  | none => Res.ret (some Error.ErrEventNotExist, s)
  | some CronPtr.nil => Res.nilDeref
  | some CronPtr.engine =>
      Res.ret (none, { Kv := fun k => if k = id then some CronPtr.nil else s.Kv k,
                       Cron := s.Cron.Stop })

/-- Source `Update`: `Delete(cron.Id)`, and `Create(cron)` when that returned no
error. -/
def Update (valid : String → Bool) (s : scheduler) (cron : Event) :
    Res (Option Error × scheduler) :=
  match Delete s cron.Id with
  | Res.nilDeref => Res.nilDeref
  | Res.ret (some err, s1) => Res.ret (some err, s1)
  | Res.ret (none, s1) => Res.ret (Create valid s1 cron)

/-- One call of the registry's interface. -/
inductive Op where
  | create (e : Event)
  | update (e : Event)
  | delete (id : Nat)
  | find (id : Nat)

/-- The registry after one call that returned (`none` when the call panicked).
A returned error leaves the state as the call left it. -/
def exec (valid : String → Bool) (s : scheduler) : Op → Option scheduler
  | Op.create e => some (Create valid s e).2
  | Op.update e =>
      match Update valid s e with
      | Res.ret r => some r.2
      | Res.nilDeref => none
  | Op.delete id =>
      match Delete s id with
      | Res.ret r => some r.2
      | Res.nilDeref => none
  | Op.find _ => some s

/-- The registry after a sequence of calls, each of which returned. -/
def run (valid : String → Bool) (s : scheduler) : List Op → Option scheduler
  | [] => some s
  | op :: ops =>
      match exec valid s op with
      | some s1 => run valid s1 ops
      | none => none

/-- The registrations for `id` that still fire: the engine is processing ticks
and holds a registration whose callback was built for an event with that id. -/
def liveRegs (s : scheduler) (id : Nat) : List cron.Entry :=
  if s.Cron.running then s.Cron.entries.filter (fun en => en.Job.Id = id) else []

/-! ## The dispatcher -/

/-- Two's-complement wrap of an integer into the signed 64-bit range, the
arithmetic of Go's `int` (on a 64-bit target) and `int64`. -/
def wrap64 (x : Int) : Int := (x + 2 ^ 63) % 2 ^ 64 - 2 ^ 63

/-- The constant `time.Second`, a `time.Duration` counted in nanoseconds. -/
def Second : Int := 1000000000

/-- The source expression `time.Duration(cron.RetryTimeout) * time.Second`: a
conversion to `int64` followed by an `int64` multiplication. -/
def secs (cron : Event) : Int := wrap64 (wrap64 cron.RetryTimeout * Second)

/-- The observable steps of one dispatch run, in program order. -/
inductive Action where
  /-- The call `http.Get(url)` and whether it returned without error. -/
  | httpGet (url : String) (ok : Bool)
  /-- The log line "Event job event sent". -/
  | logSent (url : String)
  /-- The log line "Retrying to send event". -/
  | logRetrying (url : String) (retries : Int)
  /-- The log line "Max retries reached". -/
  | logMaxRetries (url : String) (retries : Int)
  /-- The call `time.Sleep(d)`, with `d` in nanoseconds. -/
  | sleep (d : Int)
  deriving DecidableEq, Repr

/-- Source closure `runJob` inside `Create`, called with itself as `fn`.
`get k` is the outcome of the `k`-th call of `http.Get` in this run (`true`: no
error). `fuel` bounds the depth of the self-call `fn(fn, retries-1)`; `none`
means the run has not returned within that depth. -/
def runJob (get : Nat → Bool) (cron : Event) : Nat → Nat → Int → Option (List Action)
  | 0, _, _ => none
  | fuel + 1, k, retries =>
      if get k then
        some [Action.httpGet cron.Url true, Action.logSent cron.Url]
      else if retries = 0 then
        some [Action.httpGet cron.Url false, Action.logRetrying cron.Url retries,
              Action.logMaxRetries cron.Url retries]
      else
        (runJob get cron fuel (k + 1) (wrap64 (retries - 1))).map
          (fun rest => Action.httpGet cron.Url false :: Action.logRetrying cron.Url retries ::
            Action.sleep (secs cron) :: rest)

/-- The callback that `Create` hands to `AddFunc`:
`func() { runJob(runJob, cron.MaxRetries) }`. -/
def callback (get : Nat → Bool) (cron : Event) (fuel : Nat) : Option (List Action) :=
  runJob get cron fuel 0 cron.MaxRetries

/-- Whether a step is a delivery attempt. -/
def Action.isGet : Action → Bool
  | Action.httpGet _ _ => true
  | _ => false

/-- Whether a step is a sleep. -/
def Action.isSleep : Action → Bool
  | Action.sleep _ => true
  | _ => false

/-- Whether a step is the diagnostic line "Retrying to send event". -/
def Action.isRetryLog : Action → Bool
  | Action.logRetrying _ _ => true
  | _ => false

/-- The delivery attempts and sleeps of a run, without the log lines. -/
def effects (tr : List Action) : List Action :=
  tr.filter (fun a => a.isGet || a.isSleep)

/-- The number of delivery attempts of a run. -/
def attempts (tr : List Action) : Nat := (tr.filter Action.isGet).length

/-- The number of sleeps of a run. -/
def sleeps (tr : List Action) : Nat := (tr.filter Action.isSleep).length

/-- The dispatcher algorithm in the specification's words (section 4.2), for
`remaining` retries left and the fixed delay `D`, at attempt number `k`:
1. attempt delivery; 2. on success record success and terminate; 3. on failure
with no retries remaining record "max retries reached" and terminate;
4. otherwise sleep for `D`, decrement the remaining count, go to step 1. -/
def specDispatch (get : Nat → Bool) (url : String) (D : Int) : Nat → Nat → List Action
  | 0, k =>
      if get k then [Action.httpGet url true, Action.logSent url]
      else [Action.httpGet url false, Action.logMaxRetries url 0]
  | remaining + 1, k =>
      if get k then [Action.httpGet url true, Action.logSent url]
      else Action.httpGet url false :: Action.sleep D ::
        specDispatch get url D remaining (k + 1)

/-! ## Concrete collaborators used for evaluation -/

/-- A timer engine whose parser accepts exactly the listed expressions. -/
def acceptsOnly (good : List String) : String → Bool := fun s => good.contains s

/-- A calendar in which every schedule matches every instant. -/
def alwaysDue : String → Nat → Bool := fun _ _ => true

/-- A transport whose every request fails. -/
def alwaysFail : Nat → Bool := fun _ => false

/-- The only expression the sample engine accepts. -/
def hourly : String := "@hourly"

/-- The parser of the sample engine. -/
def sampleValid : String → Bool := acceptsOnly [hourly]

/-- A sample event with id 1. -/
def ev1 : Event :=
  { Id := 1, Expression := hourly, Url := "http://a.example/hook", MaxRetries := 2,
    RetryTimeout := 3 }

/-- A second version of the sample event with id 1 (new url and retry policy). -/
def ev1b : Event :=
  { Id := 1, Expression := hourly, Url := "http://b.example/hook", MaxRetries := 5,
    RetryTimeout := 7 }

/-- A sample event with id 2. -/
def ev2 : Event :=
  { Id := 2, Expression := hourly, Url := "http://c.example/hook", MaxRetries := 0,
    RetryTimeout := 1 }

/-- A sample event whose expression the sample engine rejects. -/
def evBad : Event :=
  { Id := 4, Expression := "every now and then", Url := "http://d.example/hook",
    MaxRetries := 1, RetryTimeout := 1 }

/-- The registry after `New()` and `Create(ev1)`. -/
def reg1 : scheduler := (Create sampleValid New ev1).2

/-- The registry after `New()`, `Create(ev1)` and `Create(ev2)`. -/
def reg12 : scheduler := (Create sampleValid reg1 ev2).2

/-- A sample event with one retry and a retry timeout of 10^10 seconds. -/
def evLong : Event :=
  { Id := 3, Expression := hourly, Url := "http://e.example/hook", MaxRetries := 1,
    RetryTimeout := 10000000000 }

/-- A transport whose third request is the first to succeed. -/
def thirdSucceeds : Nat → Bool := fun k => decide (k = 2)

/-- A sample sequence of calls: id 1 is created, updated and deleted; id 2 is
only the subject of an `Update` and a `Find`, both of which fail. -/
def sampleOps : List Op :=
  [Op.create ev1, Op.update ev2, Op.find 2, Op.update ev1b, Op.delete 1]

/-- The registry after `New()` and the calls of `sampleOps`. -/
def regAfter : scheduler := (run sampleValid New sampleOps).getD New

/-- The registry after `New()`, `Create(ev1)` and a successful `Delete(1)`. -/
def regDel : scheduler :=
  { Kv := fun k => if k = 1 then some CronPtr.nil else reg1.Kv k, Cron := reg1.Cron.Stop }

/-! ## Bulk load -/

namespace repo

/-- Modelled from the spec: the event store, "list all persisted events matching
a query". `FindEvents` is the outcome of the one call the source makes,
`repo.FindEvents(&crons, query)` with the empty query: the events written to
`crons` and the error returned. -/
structure Repo where
  FindEvents : List Event × Option Error

end repo

/-- The assignment of the next element to the loop variable `cron` of
`ScheduleAll`, seen from the engine. `Create` receives `&cron`, so the callbacks
registered by earlier iterations of a loop that has one variable for all its
iterations read the newly assigned event from then on. `n0` is the number of
registrations the engine held when the loop began; the later ones were made by
this loop. -/
def assignLoopVar (n0 : Nat) (c : cron.Cron) (v : Event) : cron.Cron :=
  { c with entries := c.entries.take n0 ++
      (c.entries.drop n0).map (fun en => { en with Job := v }) }

/-- The loop `for _, cron := range crons` of `ScheduleAll`, which stops at the
first `Create` that returns an error. `sharedVar` is the language version's loop
semantics: `true` when the loop has one variable `cron` for all iterations (Go
before 1.22), `false` when each iteration has its own. -/
def ScheduleAll_loop (valid : String → Bool) (sharedVar : Bool) (n0 : Nat) :
    scheduler → List Event → Option Error × scheduler
  | s, [] => (none, s)
  | s, cron :: rest =>
      let s0 : scheduler :=
        if sharedVar then { s with Cron := assignLoopVar n0 s.Cron cron } else s
      match Create valid s0 cron with
      | (some err, s1) => (some err, s1)
      | (none, s1) => ScheduleAll_loop valid sharedVar n0 s1 rest

/-- Source `ScheduleAll`: the store's error is returned as it is, before anything
is created; otherwise `Create` is called for each event in turn. -/
def ScheduleAll (valid : String → Bool) (sharedVar : Bool) (s : scheduler)
    (repo : repo.Repo) : Option Error × scheduler :=
  match repo.FindEvents with
  | (_, some err) => (some err, s)
  | (crons, none) => ScheduleAll_loop valid sharedVar s.Cron.entries.length s crons

/-- One call of the registry's interface, `ScheduleAll` included. -/
inductive Call where
  | op (o : Op)
  | scheduleAll (r : repo.Repo)

/-- The registry after one call that returned (`none` when the call panicked). -/
def execAll (valid : String → Bool) (sharedVar : Bool) (s : scheduler) :
    Call → Option scheduler
  | Call.op o => exec valid s o
  | Call.scheduleAll r => some (ScheduleAll valid sharedVar s r).2

/-- The registry after a sequence of calls, each of which returned. -/
def runAll (valid : String → Bool) (sharedVar : Bool) (s : scheduler) :
    List Call → Option scheduler
  | [] => some s
  | c :: cs =>
      match execAll valid sharedVar s c with
      | some s1 => runAll valid sharedVar s1 cs
      | none => none

/-- The schedules on which the engine fires: the expressions of its
registrations while it is processing ticks. -/
def liveSpecs (s : scheduler) : List String :=
  if s.Cron.running then s.Cron.entries.map (fun en => en.Spec) else []

/-- A store whose query succeeds with the sample events 1 and 2. -/
def repo12 : repo.Repo := { FindEvents := ([ev1, ev2], none) }

/-- A store whose query succeeds with an event the sample engine rejects and
the sample event 1. -/
def repoBad : repo.Repo := { FindEvents := ([evBad, ev1], none) }

/-- A store whose query fails with the error value 7, after one event was
written to `crons`. -/
def repoDown : repo.Repo := { FindEvents := ([ev2], some (Error.repoErr 7)) }

/-- A sample event with a negative retry count. -/
def evNeg : Event :=
  { Id := 5, Expression := hourly, Url := "http://f.example/hook", MaxRetries := -1,
    RetryTimeout := 1 }

/-- The registry after `New()`, `Create(ev1)`, a successful `Delete(1)`,
`Create(ev2)` and a bulk load of the sample events 1 and 2. -/
def regReload : scheduler :=
  (ScheduleAll sampleValid true (Create sampleValid regDel ev2).2 repo12).2

/-! ## Lock discipline -/

/-- The mutex objects a call can lock: the `sync.RWMutex` embedded in the
registry instance that `New` returns, and the one embedded in the copy of the
struct that a value receiver is. -/
inductive Mutex where
  | registry
  | receiverCopy
  deriving DecidableEq, Repr

/-- The steps of a call that matter for mutual exclusion. -/
inductive Step where
  /-- The call `s.Lock()` on the given mutex. -/
  | lock (m : Mutex)
  /-- The deferred `s.Unlock()` on the given mutex. -/
  | unlock (m : Mutex)
  /-- A read of the map `Kv`. -/
  | readKv
  /-- A write to the map `Kv`. -/
  | writeKv
  /-- A call on the timer engine (`AddFunc`, `Stop`). -/
  | engine
  deriving DecidableEq, Repr

/-- Source `Create` (pointer receiver) as steps: `s.Cron.AddFunc(...)`,
`s.Lock()`, `s.Kv[cron.Id] = s.Cron`, the deferred `s.Unlock()`. -/
def CreateSteps : List Step :=
  [Step.engine, Step.lock Mutex.registry, Step.writeKv, Step.unlock Mutex.registry]

/-- Source `Find` (pointer receiver) as steps: `s.Lock()`, `s.Kv[id]`, the
deferred `s.Unlock()`. -/
def FindSteps : List Step :=
  [Step.lock Mutex.registry, Step.readKv, Step.unlock Mutex.registry]

/-- Source `Delete` as steps. Its receiver is `s scheduler`, a value: `s` is a
copy of the struct, the embedded mutex included, so `s.Lock()` locks the copy;
the map behind `s.Kv` is the shared one. With the key found: `s.Kv[id]` (the
lookup), `s.Kv[id].Stop()` (a read and an engine call), `s.Kv[id] = nil`. -/
def DeleteSteps (found : Bool) : List Step :=
  if found then
    [Step.lock Mutex.receiverCopy, Step.readKv, Step.readKv, Step.engine, Step.writeKv,
      Step.unlock Mutex.receiverCopy]
  else [Step.lock Mutex.receiverCopy, Step.readKv, Step.unlock Mutex.receiverCopy]

/-- Whether every map access in a call's steps happens while the call holds the
registry's mutex; `held` says whether it holds it at the start. -/
def guarded : Bool → List Step → Bool
  | _, [] => true
  | _, Step.lock Mutex.registry :: rest => guarded true rest
  | _, Step.unlock Mutex.registry :: rest => guarded false rest
  | held, Step.readKv :: rest => held && guarded held rest
  | held, Step.writeKv :: rest => held && guarded held rest
  | held, _ :: rest => guarded held rest

/-- Two calls running concurrently: the steps each has left, which of them (if
any) holds the registry's mutex (`false` the first call, `true` the second),
whether each is between its `Lock` and its `Unlock`, and whether a call has
accessed the map while the other one was between its `Lock` and `Unlock`. -/
structure Par where
  a : List Step
  b : List Step
  holder : Option Bool
  inA : Bool
  inB : Bool
  clash : Bool
  deriving DecidableEq, Repr

/-- The start of two concurrent calls, nobody holding a lock. -/
def Par.init (a b : List Step) : Par :=
  { a := a, b := b, holder := none, inA := false, inB := false, clash := false }

/-- One step of the call `who`. `none` when that call has no step left, or waits
for the registry's mutex, which is held. A receiver's copy of the mutex is
private to its call and free. -/
def Par.step (p : Par) (who : Bool) : Option Par :=
  let mine := if who then p.b else p.a
  let otherIn := if who then p.inA else p.inB
  let setIn := fun (q : Par) (v : Bool) => if who then { q with inB := v } else { q with inA := v }
  match mine with
  | [] => none
  | st :: rest =>
      let q : Par := if who then { p with b := rest } else { p with a := rest }
      match st with
      | Step.lock Mutex.registry =>
          if p.holder.isSome then none else some (setIn { q with holder := some who } true)
      | Step.lock Mutex.receiverCopy => some (setIn q true)
      | Step.unlock Mutex.registry => some (setIn { q with holder := none } false)
      | Step.unlock Mutex.receiverCopy => some (setIn q false)
      | Step.readKv => some { q with clash := q.clash || otherIn }
      | Step.writeKv => some { q with clash := q.clash || otherIn }
      | Step.engine => some q

/-- The configuration after the calls have stepped in the order `sched` names
(`none` when the order asks a call to step that cannot). -/
def Par.exec (p : Par) : List Bool → Option Par
  | [] => some p
  | who :: rest =>
      match p.step who with
      | some q => q.exec rest
      | none => none

/-- Whether no order of at most `n` further steps leads to a clash. -/
def Par.clashFree : Nat → Par → Bool
  | 0, p => !p.clash
  | n + 1, p => !p.clash &&
      (match p.step false with
        | some q => q.clashFree n
        | none => true) &&
      (match p.step true with
        | some q => q.clashFree n
        | none => true)

/-- An interleaving of `Delete` (first call, key found) and `Create` (second
call): `Delete` locks and looks the key up, `Create` runs to its end, then
`Delete` finishes. -/
def raceSched : List Bool :=
  [false, false, true, true, true, true, false, false, false, false]

/-! ## Registry lemmas -/

theorem Find_of_absent (s : scheduler) (id : Nat) (h : s.Kv id = none) :
    Find s id = (CronPtr.nil, some Error.ErrEventNotExist) := by
  simp [Find, h]

theorem Delete_of_absent (s : scheduler) (id : Nat) (h : s.Kv id = none) :
    Delete s id = Res.ret (some Error.ErrEventNotExist, s) := by
  simp [Delete, h]

/-- For an id with no map entry `Update` returns `ErrEventNotExist` and the
registry it was given; `Create` is not called. -/
theorem Update_of_absent (valid : String → Bool) (s : scheduler) (e : Event)
    (h : s.Kv e.Id = none) :
    Update valid s e = Res.ret (some Error.ErrEventNotExist, s) := by
  simp [Update, Delete, h]

/-- For an id whose key is bound to the nil pointer `Update` panics in its
`Delete`. -/
theorem Update_of_nil (valid : String → Bool) (s : scheduler) (e : Event)
    (h : s.Kv e.Id = some CronPtr.nil) : Update valid s e = Res.nilDeref := by
  simp [Update, Delete, h]

theorem Create_Kv_other (valid : String → Bool) (s : scheduler) (e : Event) (id : Nat)
    (h : e.Id ≠ id) : (Create valid s e).2.Kv id = s.Kv id := by
  have h1 : ¬ id = e.Id := fun h2 => h h2.symm
  simp [Create, h1]

theorem Create_running (valid : String → Bool) (s : scheduler) (e : Event) :
    (Create valid s e).2.Cron.running = s.Cron.running := by
  simp only [Create, cron.Cron.AddFunc]
  split <;> rfl

/-- A call that returns keeps a key absent, unless it is `Create` for that key. -/
theorem exec_keeps_absent (valid : String → Bool) (s s1 : scheduler) (op : Op) (id : Nat)
    (h : s.Kv id = none) (hop : ∀ e, op = Op.create e → e.Id ≠ id)
    (hex : exec valid s op = some s1) : s1.Kv id = none := by
  cases op with
  | create e =>
      simp only [exec, Option.some.injEq] at hex
      subst hex
      rw [Create_Kv_other valid s e id (hop e rfl)]
      exact h
  | update e =>
      simp only [exec, Update, Delete] at hex
      by_cases hid : e.Id = id
      · rw [hid, h] at hex
        simp only [Option.some.injEq] at hex
        subst hex
        exact h
      · have hid1 : ¬ id = e.Id := fun h2 => hid h2.symm
        cases hk : s.Kv e.Id with
        | none =>
            rw [hk] at hex
            simp only [Option.some.injEq] at hex
            subst hex
            exact h
        | some p =>
            cases p with
            | nil =>
                rw [hk] at hex
                simp at hex
            | engine =>
                rw [hk] at hex
                simp only [Option.some.injEq] at hex
                subst hex
                rw [Create_Kv_other valid _ e id hid]
                simp [hid1, h]
  | delete j =>
      simp only [exec, Delete] at hex
      cases hk : s.Kv j with
      | none =>
          rw [hk] at hex
          simp only [Option.some.injEq] at hex
          subst hex
          exact h
      | some p =>
          cases p with
          | nil =>
              rw [hk] at hex
              simp at hex
          | engine =>
              rw [hk] at hex
              simp only [Option.some.injEq] at hex
              subst hex
              have hj : ¬ id = j := by
                intro h2
                rw [h2] at h
                rw [h] at hk
                exact Option.noConfusion hk
              simp [hj, h]
  | find j =>
      simp only [exec, Option.some.injEq] at hex
      subst hex
      exact h

/-- A sequence of calls that all return keeps a key absent, when none of them
is `Create` for that key. -/
theorem run_keeps_absent (valid : String → Bool) (ops : List Op) (id : Nat)
    (hnever : ∀ e, Op.create e ∈ ops → e.Id ≠ id) :
    ∀ s s1 : scheduler, s.Kv id = none → run valid s ops = some s1 → s1.Kv id = none := by
  induction ops with
  | nil =>
      intro s s1 h hrun
      simp only [run, Option.some.injEq] at hrun
      subst hrun
      exact h
  | cons op ops ih =>
      intro s s1 h hrun
      simp only [run] at hrun
      cases hex : exec valid s op with
      | none =>
          rw [hex] at hrun
          exact Option.noConfusion hrun
      | some s0 =>
          rw [hex] at hrun
          have hop : ∀ e, op = Op.create e → e.Id ≠ id := by
            intro e he
            exact hnever e (by rw [he]; exact List.mem_cons_self _ _)
          have h0 := exec_keeps_absent valid s s0 op id h hop hex
          exact ih (fun e he => hnever e (List.mem_cons_of_mem _ he)) s0 s1 h0 hrun

/-- A call that returns leaves a stopped engine stopped. -/
theorem exec_keeps_stopped (valid : String → Bool) (s s1 : scheduler) (op : Op)
    (h : s.Cron.running = false) (hex : exec valid s op = some s1) :
    s1.Cron.running = false := by
  cases op with
  | create e =>
      simp only [exec, Option.some.injEq] at hex
      subst hex
      rw [Create_running]
      exact h
  | update e =>
      simp only [exec, Update, Delete] at hex
      cases hk : s.Kv e.Id with
      | none =>
          rw [hk] at hex
          simp only [Option.some.injEq] at hex
          subst hex
          exact h
      | some p =>
          cases p with
          | nil =>
              rw [hk] at hex
              simp at hex
          | engine =>
              rw [hk] at hex
              simp only [Option.some.injEq] at hex
              subst hex
              rw [Create_running]
              rfl
  | delete j =>
      simp only [exec, Delete] at hex
      cases hk : s.Kv j with
      | none =>
          rw [hk] at hex
          simp only [Option.some.injEq] at hex
          subst hex
          exact h
      | some p =>
          cases p with
          | nil =>
              rw [hk] at hex
              simp at hex
          | engine =>
              rw [hk] at hex
              simp only [Option.some.injEq] at hex
              subst hex
              rfl
  | find j =>
      simp only [exec, Option.some.injEq] at hex
      subst hex
      exact h

/-- A sequence of calls that all return leaves a stopped engine stopped. -/
theorem run_keeps_stopped (valid : String → Bool) (ops : List Op) :
    ∀ s s1 : scheduler, s.Cron.running = false → run valid s ops = some s1 →
      s1.Cron.running = false := by
  induction ops with
  | nil =>
      intro s s1 h hrun
      simp only [run, Option.some.injEq] at hrun
      subst hrun
      exact h
  | cons op ops ih =>
      intro s s1 h hrun
      simp only [run] at hrun
      cases hex : exec valid s op with
      | none =>
          rw [hex] at hrun
          exact Option.noConfusion hrun
      | some s0 =>
          rw [hex] at hrun
          exact ih s0 s1 (exec_keeps_stopped valid s s0 op h hex) hrun

/-- A successful `Delete` leaves the engine stopped. -/
theorem Delete_ok_stops (s s1 : scheduler) (id : Nat)
    (hdel : Delete s id = Res.ret (none, s1)) : s1.Cron.running = false := by
  simp only [Delete] at hdel
  cases hk : s.Kv id with
  | none =>
      rw [hk] at hdel
      simp at hdel
  | some p =>
      cases p with
      | nil =>
          rw [hk] at hdel
          simp at hdel
      | engine =>
          rw [hk] at hdel
          simp only [Res.ret.injEq, Prod.mk.injEq, true_and] at hdel
          subst hdel
          rfl

/-! ## Dispatcher lemmas -/

theorem wrap64_of_range (x : Int) (h1 : -2 ^ 63 ≤ x) (h2 : x < 2 ^ 63) : wrap64 x = x := by
  unfold wrap64
  have h3 : (x + 2 ^ 63) % 2 ^ 64 = x + 2 ^ 63 :=
    Int.emod_eq_of_lt (by omega) (by omega)
  omega

/-- When `D` seconds fit a 64-bit count of nanoseconds, the duration the source
computes is `D` seconds. -/
theorem secs_of_range (e : Event) (h1 : -2 ^ 63 ≤ e.RetryTimeout * Second)
    (h2 : e.RetryTimeout * Second < 2 ^ 63) : secs e = e.RetryTimeout * Second := by
  unfold secs
  unfold Second at h1 h2
  have h3 : wrap64 e.RetryTimeout = e.RetryTimeout := wrap64_of_range _ (by omega) (by omega)
  rw [h3]
  exact wrap64_of_range _ h1 h2

/-- With `r` retries left, `0 ≤ r < 2^63`, a run returns within depth `r + 1`,
and its trace without the "Retrying to send event" lines is the trace of the
specification's loop. -/
theorem runJob_follows_spec (get : Nat → Bool) (e : Event) (r : Nat) :
    r < 2 ^ 63 → ∀ fuel k : Nat, r + 1 ≤ fuel →
      ∃ tr, runJob get e fuel k (r : Int) = some tr ∧
        tr.filter (fun a => !a.isRetryLog) = specDispatch get e.Url (secs e) r k := by
  induction r with
  | zero =>
      intro _ fuel k hfuel
      obtain ⟨f, rfl⟩ : ∃ f, fuel = f + 1 := ⟨fuel - 1, by omega⟩
      by_cases hg : get k = true
      · exact ⟨[Action.httpGet e.Url true, Action.logSent e.Url], by simp [runJob, hg],
          by simp [specDispatch, hg, Action.isRetryLog]⟩
      · exact ⟨[Action.httpGet e.Url false, Action.logRetrying e.Url 0,
            Action.logMaxRetries e.Url 0], by simp [runJob, hg],
          by simp [specDispatch, hg, Action.isRetryLog]⟩
  | succ r ih =>
      intro hr fuel k hfuel
      obtain ⟨f, rfl⟩ : ∃ f, fuel = f + 1 := ⟨fuel - 1, by omega⟩
      by_cases hg : get k = true
      · exact ⟨[Action.httpGet e.Url true, Action.logSent e.Url], by simp [runJob, hg],
          by simp [specDispatch, hg, Action.isRetryLog]⟩
      · obtain ⟨tr, htr, hspec⟩ := ih (by omega) f (k + 1) (by omega)
        have hne : ((r + 1 : Nat) : Int) ≠ 0 := by omega
        have hdec : wrap64 (((r + 1 : Nat) : Int) - 1) = (r : Int) := by
          rw [wrap64_of_range _ (by omega) (by omega)]
          omega
        refine ⟨Action.httpGet e.Url false :: Action.logRetrying e.Url ((r + 1 : Nat) : Int) ::
          Action.sleep (secs e) :: tr, ?_, ?_⟩
        · simp only [runJob, hg, hne, hdec, htr]
          simp
        · have hspec1 : List.filter (fun a => !a.isRetryLog) tr =
              specDispatch get e.Url (secs e) r (k + 1) := hspec
          simp [specDispatch, hg, Action.isRetryLog]
          simpa [Action.isRetryLog] using hspec1

theorem attempts_filter_retryLog (tr : List Action) :
    attempts (tr.filter (fun a => !a.isRetryLog)) = attempts tr := by
  unfold attempts
  rw [List.filter_filter]
  congr 2
  funext a
  cases a <;> rfl

theorem sleeps_filter_retryLog (tr : List Action) :
    sleeps (tr.filter (fun a => !a.isRetryLog)) = sleeps tr := by
  unfold sleeps
  rw [List.filter_filter]
  congr 2
  funext a
  cases a <;> rfl

theorem effects_filter_retryLog (tr : List Action) :
    effects (tr.filter (fun a => !a.isRetryLog)) = effects tr := by
  unfold effects
  rw [List.filter_filter]
  congr 1
  funext a
  cases a <;> rfl

/-- The counts of the specification's loop: between 1 and `r + 1` attempts, one
sleep fewer than attempts, every attempt before the last one failed, and the
last one succeeded unless all `r + 1` attempts were used. -/
theorem specDispatch_counts (get : Nat → Bool) (url : String) (D : Int) (r : Nat) :
    ∀ k : Nat,
      1 ≤ attempts (specDispatch get url D r k) ∧
      attempts (specDispatch get url D r k) ≤ r + 1 ∧
      sleeps (specDispatch get url D r k) + 1 = attempts (specDispatch get url D r k) ∧
      (∀ j, j + 1 < attempts (specDispatch get url D r k) → get (k + j) = false) ∧
      (get (k + (attempts (specDispatch get url D r k) - 1)) = true ∨
        attempts (specDispatch get url D r k) = r + 1) := by
  induction r with
  | zero =>
      intro k
      by_cases hg : get k = true
      · simp [specDispatch, hg, attempts, sleeps, Action.isGet, Action.isSleep]
      · simp [specDispatch, hg, attempts, sleeps, Action.isGet, Action.isSleep]
  | succ r ih =>
      intro k
      by_cases hg : get k = true
      · simp [specDispatch, hg, attempts, sleeps, Action.isGet, Action.isSleep]
      · obtain ⟨h1, h2, h3, h4, h5⟩ := ih (k + 1)
        have ha : attempts (specDispatch get url D (r + 1) k) =
            attempts (specDispatch get url D r (k + 1)) + 1 := by
          simp [specDispatch, hg, attempts, Action.isGet]
        have hs : sleeps (specDispatch get url D (r + 1) k) =
            sleeps (specDispatch get url D r (k + 1)) + 1 := by
          simp [specDispatch, hg, sleeps, Action.isSleep]
        rw [ha, hs]
        refine ⟨by omega, by omega, by omega, ?_, ?_⟩
        · intro j hj
          cases j with
          | zero => simpa using hg
          | succ j =>
              have := h4 j (by omega)
              rw [show k + (j + 1) = k + 1 + j by omega]
              exact this
        · cases h5 with
          | inl h =>
              left
              rw [show k + (attempts (specDispatch get url D r (k + 1)) + 1 - 1) =
                k + 1 + (attempts (specDispatch get url D r (k + 1)) - 1) by omega]
              exact h
          | inr h => right; omega

/-- When every attempt fails, the specification's loop makes `r + 1` attempts
with one sleep of `D` between each pair of successive attempts. -/
theorem specDispatch_all_fail (get : Nat → Bool) (url : String) (D : Int)
    (hfail : ∀ k, get k = false) (r : Nat) :
    ∀ k : Nat, effects (specDispatch get url D r k) =
      List.intersperse (Action.sleep D) (List.replicate (r + 1) (Action.httpGet url false)) := by
  induction r with
  | zero =>
      intro k
      simp [specDispatch, hfail, effects, Action.isGet, Action.isSleep, List.intersperse]
  | succ r ih =>
      intro k
      have h := ih (k + 1)
      have hstep : effects (specDispatch get url D (r + 1) k) =
          Action.httpGet url false :: Action.sleep D ::
            effects (specDispatch get url D r (k + 1)) := by
        simp [specDispatch, hfail, effects, Action.isGet, Action.isSleep]
      rw [hstep, h]
      rw [List.replicate_succ (n := r + 1), List.replicate_succ (n := r)]
      simp [List.intersperse]

/-! ## Bulk-load lemmas -/

theorem assignLoopVar_specs (n0 : Nat) (c : cron.Cron) (v : Event) :
    (assignLoopVar n0 c v).entries.map (fun en => en.Spec) =
      c.entries.map (fun en => en.Spec) := by
  have h : (c.entries.take n0 ++ c.entries.drop n0).map (fun en => en.Spec) =
      c.entries.map (fun en => en.Spec) := by rw [List.take_append_drop]
  rw [← h]
  simp [assignLoopVar, List.map_append, List.map_map, Function.comp_def]

/-- One iteration of the loop: the loop variable is assigned, `Create` is called
and returns no error, and the loop goes on. -/
theorem ScheduleAll_loop_cons (valid : String → Bool) (sharedVar : Bool) (n0 : Nat)
    (s : scheduler) (e : Event) (rest : List Event) :
    ScheduleAll_loop valid sharedVar n0 s (e :: rest) =
      ScheduleAll_loop valid sharedVar n0
        (Create valid
          (if sharedVar then { s with Cron := assignLoopVar n0 s.Cron e } else s) e).2 rest :=
  rfl

theorem loopVar_Kv (sharedVar : Bool) (n0 : Nat) (s : scheduler) (e : Event) (k : Nat) :
    (if sharedVar then { s with Cron := assignLoopVar n0 s.Cron e } else s).Kv k = s.Kv k := by
  cases sharedVar <;> rfl

theorem loopVar_running (sharedVar : Bool) (n0 : Nat) (s : scheduler) (e : Event) :
    (if sharedVar then { s with Cron := assignLoopVar n0 s.Cron e } else s).Cron.running =
      s.Cron.running := by
  cases sharedVar <;> rfl

theorem loopVar_specs (sharedVar : Bool) (n0 : Nat) (s : scheduler) (e : Event) :
    (if sharedVar then { s with Cron := assignLoopVar n0 s.Cron e }
      else s).Cron.entries.map (fun en => en.Spec) = s.Cron.entries.map (fun en => en.Spec) := by
  cases sharedVar
  · rfl
  · exact assignLoopVar_specs n0 s.Cron e

theorem Create_specs (valid : String → Bool) (s : scheduler) (e : Event) :
    (Create valid s e).2.Cron.entries.map (fun en => en.Spec) =
      s.Cron.entries.map (fun en => en.Spec) ++
        (if valid e.Expression then [e.Expression] else []) := by
  simp only [Create, cron.Cron.AddFunc]
  split <;> simp

theorem Create_Kv_self (valid : String → Bool) (s : scheduler) (e : Event) :
    (Create valid s e).2.Kv e.Id = some CronPtr.engine := by
  simp [Create]

/-- The loop never returns an error. -/
theorem ScheduleAll_loop_err (valid : String → Bool) (sharedVar : Bool) (n0 : Nat)
    (evs : List Event) :
    ∀ s : scheduler, (ScheduleAll_loop valid sharedVar n0 s evs).1 = none := by
  induction evs with
  | nil => intro s; rfl
  | cons e rest ih =>
      intro s
      rw [ScheduleAll_loop_cons]
      exact ih _

/-- The loop leaves the engine running or stopped as it was. -/
theorem ScheduleAll_loop_running (valid : String → Bool) (sharedVar : Bool) (n0 : Nat)
    (evs : List Event) : ∀ s : scheduler,
      (ScheduleAll_loop valid sharedVar n0 s evs).2.Cron.running = s.Cron.running := by
  induction evs with
  | nil => intro s; rfl
  | cons e rest ih =>
      intro s
      rw [ScheduleAll_loop_cons, ih, Create_running, loopVar_running]

/-- The loop keeps a key that is bound to the engine bound to it. -/
theorem ScheduleAll_loop_keeps (valid : String → Bool) (sharedVar : Bool) (n0 : Nat)
    (evs : List Event) (k : Nat) : ∀ s : scheduler, s.Kv k = some CronPtr.engine →
      (ScheduleAll_loop valid sharedVar n0 s evs).2.Kv k = some CronPtr.engine := by
  induction evs with
  | nil => intro s h; exact h
  | cons e rest ih =>
      intro s h
      rw [ScheduleAll_loop_cons]
      apply ih
      by_cases hk : e.Id = k
      · rw [← hk]; exact Create_Kv_self valid _ e
      · rw [Create_Kv_other valid _ e k hk, loopVar_Kv]
        exact h

/-- After the loop every event of the list has its id bound to the engine. -/
theorem ScheduleAll_loop_binds (valid : String → Bool) (sharedVar : Bool) (n0 : Nat)
    (evs : List Event) : ∀ s : scheduler, ∀ e ∈ evs,
      (ScheduleAll_loop valid sharedVar n0 s evs).2.Kv e.Id = some CronPtr.engine := by
  induction evs with
  | nil => intro s e he; exact absurd he (List.not_mem_nil e)
  | cons e0 rest ih =>
      intro s e he
      rw [ScheduleAll_loop_cons]
      rcases List.mem_cons.mp he with h | h
      · subst h
        exact ScheduleAll_loop_keeps valid sharedVar n0 rest e.Id _ (Create_Kv_self valid _ e)
      · exact ih _ e h

/-- The loop leaves the keys of other ids as they were. -/
theorem ScheduleAll_loop_Kv_other (valid : String → Bool) (sharedVar : Bool) (n0 : Nat)
    (evs : List Event) (k : Nat) (hk : ∀ e ∈ evs, e.Id ≠ k) : ∀ s : scheduler,
      (ScheduleAll_loop valid sharedVar n0 s evs).2.Kv k = s.Kv k := by
  induction evs with
  | nil => intro s; rfl
  | cons e rest ih =>
      intro s
      rw [ScheduleAll_loop_cons, ih (fun e1 h1 => hk e1 (List.mem_cons_of_mem _ h1)),
        Create_Kv_other valid _ e k (hk e (List.mem_cons_self _ _)), loopVar_Kv]

/-- The schedules registered by the loop: the expressions of the events that the
engine accepted, in order, after the ones that were there. -/
theorem ScheduleAll_loop_specs (valid : String → Bool) (sharedVar : Bool) (n0 : Nat)
    (evs : List Event) : ∀ s : scheduler,
      (ScheduleAll_loop valid sharedVar n0 s evs).2.Cron.entries.map (fun en => en.Spec) =
        s.Cron.entries.map (fun en => en.Spec) ++
          (evs.filter (fun e => valid e.Expression)).map (fun e => e.Expression) := by
  induction evs with
  | nil => intro s; simp [ScheduleAll_loop]
  | cons e rest ih =>
      intro s
      rw [ScheduleAll_loop_cons, ih, Create_specs, loopVar_specs]
      by_cases hv : valid e.Expression = true
      · simp [hv]
      · simp [hv]

/-- With a loop variable of its own for each iteration, the registrations made by
the loop carry their own events. -/
theorem ScheduleAll_loop_entries (valid : String → Bool) (n0 : Nat) (evs : List Event) :
    ∀ s : scheduler, (ScheduleAll_loop valid false n0 s evs).2.Cron.entries =
      s.Cron.entries ++ (evs.filter (fun e => valid e.Expression)).map
        (fun e => ({ Spec := e.Expression, Job := e } : cron.Entry)) := by
  induction evs with
  | nil => intro s; simp [ScheduleAll_loop]
  | cons e rest ih =>
      intro s
      rw [ScheduleAll_loop_cons, ih]
      by_cases hv : valid e.Expression = true
      · simp [Create, cron.Cron.AddFunc, hv]
      · simp [Create, cron.Cron.AddFunc, hv]

/-- A successful query hands the events to the loop. -/
theorem ScheduleAll_of_ok (valid : String → Bool) (sharedVar : Bool) (s : scheduler)
    (r : repo.Repo) (h : r.FindEvents.2 = none) :
    ScheduleAll valid sharedVar s r =
      ScheduleAll_loop valid sharedVar s.Cron.entries.length s r.FindEvents.1 := by
  unfold ScheduleAll
  rcases hr : r.FindEvents with ⟨crons, err⟩
  rw [hr] at h
  simp only at h
  subst h
  rfl

/-- A failed query is returned as it is and nothing is created. -/
theorem ScheduleAll_of_err (valid : String → Bool) (sharedVar : Bool) (s : scheduler)
    (r : repo.Repo) (x : Error) (h : r.FindEvents.2 = some x) :
    ScheduleAll valid sharedVar s r = (some x, s) := by
  unfold ScheduleAll
  rcases hr : r.FindEvents with ⟨crons, err⟩
  rw [hr] at h
  simp only at h
  subst h
  rfl

theorem ScheduleAll_running (valid : String → Bool) (sharedVar : Bool) (s : scheduler)
    (r : repo.Repo) : (ScheduleAll valid sharedVar s r).2.Cron.running = s.Cron.running := by
  cases h : r.FindEvents.2 with
  | none => rw [ScheduleAll_of_ok valid sharedVar s r h, ScheduleAll_loop_running]
  | some x => rw [ScheduleAll_of_err valid sharedVar s r x h]

/-- A call that returns leaves a stopped engine stopped, `ScheduleAll` included. -/
theorem execAll_keeps_stopped (valid : String → Bool) (sharedVar : Bool) (s s1 : scheduler)
    (c : Call) (h : s.Cron.running = false) (hex : execAll valid sharedVar s c = some s1) :
    s1.Cron.running = false := by
  cases c with
  | op o => exact exec_keeps_stopped valid s s1 o h hex
  | scheduleAll r =>
      simp only [execAll, Option.some.injEq] at hex
      subst hex
      rw [ScheduleAll_running]
      exact h

theorem runAll_keeps_stopped (valid : String → Bool) (sharedVar : Bool) (cs : List Call) :
    ∀ s s1 : scheduler, s.Cron.running = false → runAll valid sharedVar s cs = some s1 →
      s1.Cron.running = false := by
  induction cs with
  | nil =>
      intro s s1 h hrun
      simp only [runAll, Option.some.injEq] at hrun
      subst hrun
      exact h
  | cons c cs ih =>
      intro s s1 h hrun
      simp only [runAll] at hrun
      cases hex : execAll valid sharedVar s c with
      | none =>
          rw [hex] at hrun
          exact Option.noConfusion hrun
      | some s0 =>
          rw [hex] at hrun
          exact ih s0 s1 (execAll_keeps_stopped valid sharedVar s s0 c h hex) hrun

/-- An `Update` that returns without error leaves the engine stopped. -/
theorem Update_ok_stops (valid : String → Bool) (s s1 : scheduler) (e : Event)
    (hup : Update valid s e = Res.ret (none, s1)) : s1.Cron.running = false := by
  simp only [Update, Delete] at hup
  cases hk : s.Kv e.Id with
  | none =>
      rw [hk] at hup
      simp at hup
  | some p =>
      cases p with
      | nil =>
          rw [hk] at hup
          simp at hup
      | engine =>
          rw [hk] at hup
          simp only [Res.ret.injEq] at hup
          have h2 := congrArg Prod.snd hup
          simp only at h2
          rw [← h2, Create_running]
          rfl

/-! ## Negative retry counts -/

theorem attempts_retry_cons (url : String) (r d : Int) (tr : List Action) :
    attempts (Action.httpGet url false :: Action.logRetrying url r :: Action.sleep d :: tr) =
      attempts tr + 1 := by
  simp [attempts, Action.isGet]

/-- With a transport that always fails and a negative retry count, a run has not
returned after `n` attempts as long as the count has not wrapped around. -/
theorem runJob_negative_pending (get : Nat → Bool) (e : Event) (hfail : ∀ k, get k = false)
    (n : Nat) : ∀ (k : Nat) (retries : Int), -2 ^ 63 ≤ retries → retries < 0 →
      (n : Int) ≤ retries + 2 ^ 63 + 1 → runJob get e n k retries = none := by
  induction n with
  | zero => intro k retries _ _ _; rfl
  | succ n ih =>
      intro k retries hlo hneg hn
      have hne : retries ≠ 0 := by omega
      simp only [runJob, hfail, hne, Bool.false_eq_true, if_false]
      cases n with
      | zero => rfl
      | succ m =>
          have hdec : wrap64 (retries - 1) = retries - 1 :=
            wrap64_of_range _ (by push_cast at hn; omega) (by omega)
          rw [hdec, ih (k + 1) (retries - 1) (by push_cast at hn; omega) (by omega)
            (by push_cast at hn ⊢; omega)]
          rfl

/-- With a transport that always fails, a run that starts at the retry count
`-2^63 + m` returns only after the count has wrapped around: after
`m + 1 + 2^63` attempts. -/
theorem runJob_negative_attempts (get : Nat → Bool) (e : Event) (hfail : ∀ k, get k = false)
    (m : Nat) : m < 2 ^ 63 → ∀ fuel k : Nat, m + 1 + 2 ^ 63 ≤ fuel →
      ∃ tr, runJob get e fuel k (-2 ^ 63 + (m : Int)) = some tr ∧
        attempts tr = m + 1 + 2 ^ 63 := by
  induction m with
  | zero =>
      intro _ fuel k hfuel
      obtain ⟨f, rfl⟩ : ∃ f, fuel = f + 1 := ⟨fuel - 1, by omega⟩
      have hwrap : wrap64 (-2 ^ 63 + ((0 : Nat) : Int) - 1) = ((2 ^ 63 - 1 : Nat) : Int) := by
        decide
      obtain ⟨tr, htr, hspec⟩ :=
        runJob_follows_spec get e (2 ^ 63 - 1) (by omega) f (k + 1) (by omega)
      have hc := specDispatch_counts get e.Url (secs e) (2 ^ 63 - 1) (k + 1)
      rw [← hspec, attempts_filter_retryLog] at hc
      obtain ⟨_, _, _, _, h5⟩ := hc
      have ha : attempts tr = 2 ^ 63 - 1 + 1 := by
        cases h5 with
        | inl h => rw [hfail] at h; exact Bool.noConfusion h
        | inr h => exact h
      have hne : (-2 ^ 63 + ((0 : Nat) : Int)) ≠ 0 := by decide
      refine ⟨Action.httpGet e.Url false ::
        Action.logRetrying e.Url (-2 ^ 63 + ((0 : Nat) : Int)) ::
        Action.sleep (secs e) :: tr, ?_, ?_⟩
      · simp only [runJob, hfail, hne, hwrap, htr, Bool.false_eq_true, if_false]
        rfl
      · rw [attempts_retry_cons, ha]
        omega
  | succ m ih =>
      intro hm fuel k hfuel
      obtain ⟨f, rfl⟩ : ∃ f, fuel = f + 1 := ⟨fuel - 1, by omega⟩
      obtain ⟨tr, htr, ha⟩ := ih (by omega) f (k + 1) (by omega)
      have hne : (-2 ^ 63 + ((m + 1 : Nat) : Int)) ≠ 0 := by omega
      have hdec : wrap64 (-2 ^ 63 + ((m + 1 : Nat) : Int) - 1) = -2 ^ 63 + (m : Int) := by
        rw [wrap64_of_range _ (by omega) (by omega)]
        omega
      refine ⟨Action.httpGet e.Url false ::
        Action.logRetrying e.Url (-2 ^ 63 + ((m + 1 : Nat) : Int)) ::
        Action.sleep (secs e) :: tr, ?_, ?_⟩
      · simp only [runJob, hfail, hne, hdec, htr, Bool.false_eq_true, if_false]
        rfl
      · rw [attempts_retry_cons, ha]
        omega

/-! ## Lock-discipline lemmas -/

/-- A step consumes one step of one of the two calls. -/
theorem Par.step_length (p q : Par) (who : Bool) (h : p.step who = some q) :
    q.a.length + q.b.length + 1 = p.a.length + p.b.length := by
  rcases p with ⟨a, b, holder, inA, inB, clash⟩
  cases who
  · cases a with
    | nil => simp [Par.step] at h
    | cons st rest =>
        cases st with
        | lock m =>
            cases m
            · cases holder <;> simp [Par.step] at h
              subst h
              simp
              omega
            · simp [Par.step] at h
              subst h
              simp
              omega
        | unlock m =>
            cases m <;> simp [Par.step] at h <;> subst h <;> simp <;> omega
        | readKv => simp [Par.step] at h; subst h; simp; omega
        | writeKv => simp [Par.step] at h; subst h; simp; omega
        | engine => simp [Par.step] at h; subst h; simp; omega
  · cases b with
    | nil => simp [Par.step] at h
    | cons st rest =>
        cases st with
        | lock m =>
            cases m
            · cases holder <;> simp [Par.step] at h
              subst h
              simp
              omega
            · simp [Par.step] at h
              subst h
              simp
              omega
        | unlock m =>
            cases m <;> simp [Par.step] at h <;> subst h <;> simp <;> omega
        | readKv => simp [Par.step] at h; subst h; simp; omega
        | writeKv => simp [Par.step] at h; subst h; simp; omega
        | engine => simp [Par.step] at h; subst h; simp; omega

/-- When the bounded search finds no clash and the bound covers the steps that
are left, no order of steps leads to a clash. -/
theorem Par.clashFree_sound (sched : List Bool) :
    ∀ (n : Nat) (p q : Par), p.clashFree n = true → p.a.length + p.b.length ≤ n →
      p.exec sched = some q → q.clash = false := by
  induction sched with
  | nil =>
      intro n p q hfree _ hex
      simp only [Par.exec, Option.some.injEq] at hex
      subst hex
      cases n with
      | zero => simpa [Par.clashFree] using hfree
      | succ m =>
          simp only [Par.clashFree, Bool.and_eq_true, Bool.not_eq_true'] at hfree
          exact hfree.1.1
  | cons who rest ih =>
      intro n p q hfree hlen hex
      simp only [Par.exec] at hex
      cases hstep : p.step who with
      | none =>
          rw [hstep] at hex
          exact Option.noConfusion hex
      | some p1 =>
          rw [hstep] at hex
          have hl := Par.step_length p p1 who hstep
          cases n with
          | zero => omega
          | succ m =>
              simp only [Par.clashFree, Bool.and_eq_true, Bool.not_eq_true'] at hfree
              have hfree1 : p1.clashFree m = true := by
                cases who
                · have := hfree.1.2
                  rw [hstep] at this
                  exact this
                · have := hfree.2
                  rw [hstep] at this
                  exact this
              exact ih m p1 q hfree1 (by omega) hex

/-! ## The claims -/

/-- C1: for every event `e` and every registry state, after `Create(e)` has
returned without error, `Find(e.Id)` returns no error and a non-nil handle, and
that handle is the one the map binds to `e.Id`: the pointer to the engine, which
holds the registration of `e`'s callback whenever the engine accepted `e`'s
expression. -/
theorem create_then_find (valid : String → Bool) (s : scheduler) (e : Event)
    (_hok : (Create valid s e).1 = none) :
    (Find (Create valid s e).2 e.Id).2 = none ∧
    (Find (Create valid s e).2 e.Id).1 ≠ CronPtr.nil ∧
    (Create valid s e).2.Kv e.Id = some (Find (Create valid s e).2 e.Id).1 ∧
    (Find (Create valid s e).2 e.Id).1 = CronPtr.engine ∧
    (valid e.Expression = true →
      { Spec := e.Expression, Job := e } ∈ (Create valid s e).2.Cron.entries) := by
  refine ⟨?_, ?_, ?_, ?_, ?_⟩
  · simp [Find, Create]
  · simp [Find, Create]
  · simp [Find, Create]
  · simp [Find, Create]
  · intro hv
    simp [Create, cron.Cron.AddFunc, hv]

theorem create_then_find_witness :
    (Create sampleValid reg1 ev2).1 = none ∧
    (Find (Create sampleValid reg1 ev2).2 ev2.Id).2 = none ∧
    (Find (Create sampleValid reg1 ev2).2 ev2.Id).1 ≠ CronPtr.nil ∧
    (Create sampleValid reg1 ev2).2.Kv ev2.Id =
      some (Find (Create sampleValid reg1 ev2).2 ev2.Id).1 ∧
    (Find (Create sampleValid reg1 ev2).2 ev2.Id).1 = CronPtr.engine ∧
    (sampleValid ev2.Expression = true →
      { Spec := ev2.Expression, Job := ev2 } ∈ (Create sampleValid reg1 ev2).2.Cron.entries) :=
  ⟨rfl, create_then_find sampleValid reg1 ev2 rfl⟩

/-- C2 (the code departs from the claim): after `New()`, `Create(ev1)` and a
`Delete(1)` that returns without error, the key 1 is still in the map, bound to
the nil pointer, and `Find(1)` returns the nil handle with no error instead of
failing with `ErrEventNotExist`. -/
theorem find_after_delete_returns_nil :
    (Delete reg1 1).toOption.map Prod.fst = some none ∧
    (Delete reg1 1).toOption.map (fun r => r.2.Kv 1) = some (some CronPtr.nil) ∧
    (Delete reg1 1).toOption.map (fun r => Find r.2 1) = some (CronPtr.nil, none) := by
  decide

/-- C3: in every registry state reached from `New()` by a sequence of `Create`,
`Update`, `Delete` and `Find` calls that contains no `Create` for `id`,
`Find(id)` and `Delete(id)` fail with `ErrEventNotExist`, `Delete` returns the
registry it was given, and `Find` passes the registry on as it is. -/
theorem never_created_not_found (valid : String → Bool) (ops : List Op) (s : scheduler)
    (id : Nat) (hrun : run valid New ops = some s)
    (hnever : ∀ e, Op.create e ∈ ops → e.Id ≠ id) :
    Find s id = (CronPtr.nil, some Error.ErrEventNotExist) ∧
    Delete s id = Res.ret (some Error.ErrEventNotExist, s) ∧
    exec valid s (Op.find id) = some s := by
  have h : s.Kv id = none := run_keeps_absent valid ops id hnever New s rfl hrun
  exact ⟨Find_of_absent s id h, Delete_of_absent s id h, rfl⟩

theorem never_created_not_found_witness :
    run sampleValid New sampleOps = some regAfter ∧
    (∀ e, Op.create e ∈ sampleOps → e.Id ≠ 2) ∧
    Find regAfter 2 = (CronPtr.nil, some Error.ErrEventNotExist) ∧
    Delete regAfter 2 = Res.ret (some Error.ErrEventNotExist, regAfter) ∧
    exec sampleValid regAfter (Op.find 2) = some regAfter :=
  have hrun : run sampleValid New sampleOps = some regAfter := rfl
  have hnever : ∀ e, Op.create e ∈ sampleOps → e.Id ≠ 2 := by
    intro e he
    simp only [sampleOps, List.mem_cons, Op.create.injEq, List.mem_singleton, or_false,
      List.not_mem_nil, reduceCtorEq] at he
    rw [he]
    decide
  ⟨hrun, hnever, never_created_not_found sampleValid sampleOps regAfter 2 hrun hnever⟩

/-- C4 (the code departs from the claim): after `New()`, `Create(ev1)` and an
`Update(ev1b)` that returns without error, the engine is stopped, so no
registration for id 1 is live and no tick invokes a callback, although the
engine holds both the registration made by `Create` and the new one. -/
theorem update_leaves_no_live_registration :
    (Update sampleValid reg1 ev1b).toOption.map Prod.fst = some none ∧
    (Update sampleValid reg1 ev1b).toOption.map (fun r => liveRegs r.2 1) = some [] ∧
    (Update sampleValid reg1 ev1b).toOption.map (fun r => r.2.Cron.running) = some false ∧
    (Update sampleValid reg1 ev1b).toOption.map (fun r => r.2.Cron.tick alwaysDue 0) =
      some [] ∧
    (Update sampleValid reg1 ev1b).toOption.map (fun r => r.2.Cron.entries) =
      some [{ Spec := hourly, Job := ev1 }, { Spec := hourly, Job := ev1b }] := by
  decide

/-- C5 as stated fails for a retry timeout whose nanosecond count overflows: with
one retry, a timeout of 10^10 seconds and a transport that always fails, the one
sleep of the run is `time.Sleep` of a negative duration, and at no recursion
depth does the run make two attempts separated by a sleep of 10^10 seconds. -/
theorem retry_sleep_not_D_seconds :
    (callback alwaysFail evLong 2).map effects =
      some [Action.httpGet evLong.Url false, Action.sleep (-8446744073709551616),
        Action.httpGet evLong.Url false] ∧
    ¬ ∃ fuel tr, callback alwaysFail evLong fuel = some tr ∧
        effects tr = List.intersperse (Action.sleep (evLong.RetryTimeout * Second))
          (List.replicate (1 + 1) (Action.httpGet evLong.Url false)) := by
  constructor
  · decide
  · rintro ⟨fuel, tr, h1, h2⟩
    have hsecs : secs evLong = -8446744073709551616 := by decide
    have hdec : wrap64 (1 - 1) = 0 := by decide
    have hmax : evLong.MaxRetries = 1 := rfl
    match fuel, h1 with
    | 0, h1 => simp [callback, runJob] at h1
    | 1, h1 => simp [callback, runJob, alwaysFail, hmax] at h1
    | n + 2, h1 =>
        simp only [callback, runJob, alwaysFail, hmax, hsecs, hdec] at h1
        simp at h1
        subst h1
        revert h2
        simp [effects, Action.isGet, Action.isSleep, List.intersperse, evLong, Second]

/-- C5, amended: for `maxRetries = N ≥ 0` (a Go `int`, so `N < 2^63`) and a retry
timeout of `D` seconds whose nanosecond count `D * 10^9` fits a signed 64-bit
duration, when every delivery attempt fails, one run of the callback returns
(within recursion depth `N + 1`) after exactly `N + 1` delivery attempts and
exactly `N` sleeps, one `time.Sleep` of `D` seconds between each pair of
successive attempts. -/
theorem retry_bound (get : Nat → Bool) (e : Event) (N fuel : Nat)
    (hfail : ∀ k, get k = false) (hN : e.MaxRetries = (N : Int)) (hint : N < 2 ^ 63)
    (hlo : -2 ^ 63 ≤ e.RetryTimeout * Second) (hhi : e.RetryTimeout * Second < 2 ^ 63)
    (hfuel : N + 1 ≤ fuel) :
    ∃ tr, callback get e fuel = some tr ∧
      effects tr = List.intersperse (Action.sleep (e.RetryTimeout * Second))
        (List.replicate (N + 1) (Action.httpGet e.Url false)) ∧
      attempts tr = N + 1 ∧ sleeps tr = N := by
  obtain ⟨tr, htr, hspec⟩ := runJob_follows_spec get e N hint fuel 0 hfuel
  have hc := specDispatch_counts get e.Url (secs e) N 0
  rw [← hspec, attempts_filter_retryLog, sleeps_filter_retryLog] at hc
  obtain ⟨_, h2, h3, _, h5⟩ := hc
  have ha : attempts tr = N + 1 := by
    cases h5 with
    | inl h => rw [hfail] at h; exact Bool.noConfusion h
    | inr h => exact h
  refine ⟨tr, ?_, ?_, ha, by omega⟩
  · rw [callback, hN]
    exact htr
  · rw [← effects_filter_retryLog, hspec, specDispatch_all_fail get e.Url (secs e) hfail N 0,
      secs_of_range e hlo hhi]

theorem retry_bound_witness :
    (∀ k, alwaysFail k = false) ∧ ev1.MaxRetries = ((2 : Nat) : Int) ∧ 2 < 2 ^ 63 ∧
    -2 ^ 63 ≤ ev1.RetryTimeout * Second ∧ ev1.RetryTimeout * Second < 2 ^ 63 ∧ 2 + 1 ≤ 3 ∧
    ∃ tr, callback alwaysFail ev1 3 = some tr ∧
      effects tr = List.intersperse (Action.sleep (ev1.RetryTimeout * Second))
        (List.replicate (2 + 1) (Action.httpGet ev1.Url false)) ∧
      attempts tr = 2 + 1 ∧ sleeps tr = 2 :=
  ⟨fun _ => rfl, rfl, by decide, by decide, by decide, by decide,
    retry_bound alwaysFail ev1 2 3 (fun _ => rfl) rfl (by decide) (by decide) (by decide)
      (by decide)⟩

/-- C6: for `maxRetries = R ≥ 0` (a Go `int`, so `R < 2^63`) and every sequence
of delivery outcomes, one run of the callback returns (within recursion depth
`R + 1`) and, without its "Retrying to send event" log lines, is the run of the
specification's loop with the delay the source computes. It
makes between 1 and `R + 1` attempts, one sleep fewer than attempts, every
attempt before the last one failed, and the last attempt succeeded unless all
`R + 1` attempts were used; if the first attempt succeeds there is exactly one
attempt and no sleep. -/
theorem dispatch_refines_spec (get : Nat → Bool) (e : Event) (R fuel : Nat)
    (hR : e.MaxRetries = (R : Int)) (hint : R < 2 ^ 63) (hfuel : R + 1 ≤ fuel) :
    ∃ tr, callback get e fuel = some tr ∧
      tr.filter (fun a => !a.isRetryLog) = specDispatch get e.Url (secs e) R 0 ∧
      1 ≤ attempts tr ∧ attempts tr ≤ R + 1 ∧ sleeps tr = attempts tr - 1 ∧
      (∀ k, k + 1 < attempts tr → get k = false) ∧
      (get (attempts tr - 1) = true ∨ attempts tr = R + 1) ∧
      (get 0 = true → attempts tr = 1 ∧ sleeps tr = 0) := by
  obtain ⟨tr, htr, hspec⟩ := runJob_follows_spec get e R hint fuel 0 hfuel
  have hc := specDispatch_counts get e.Url (secs e) R 0
  rw [← hspec, attempts_filter_retryLog, sleeps_filter_retryLog] at hc
  obtain ⟨h1, h2, h3, h4, h5⟩ := hc
  refine ⟨tr, ?_, hspec, h1, h2, by omega, ?_, ?_, ?_⟩
  · rw [callback, hR]
    exact htr
  · intro k hk
    have := h4 k hk
    simpa using this
  · simpa using h5
  · intro h0
    have hone : attempts tr = 1 := by
      by_contra hne
      have := h4 0 (by omega)
      simp [h0] at this
    exact ⟨hone, by omega⟩

theorem dispatch_refines_spec_witness :
    ev1b.MaxRetries = ((5 : Nat) : Int) ∧ 5 < 2 ^ 63 ∧ 5 + 1 ≤ 6 ∧
    ∃ tr, callback thirdSucceeds ev1b 6 = some tr ∧
      tr.filter (fun a => !a.isRetryLog) =
        specDispatch thirdSucceeds ev1b.Url (secs ev1b) 5 0 ∧
      1 ≤ attempts tr ∧ attempts tr ≤ 5 + 1 ∧ sleeps tr = attempts tr - 1 ∧
      (∀ k, k + 1 < attempts tr → thirdSucceeds k = false) ∧
      (thirdSucceeds (attempts tr - 1) = true ∨ attempts tr = 5 + 1) ∧
      (thirdSucceeds 0 = true → attempts tr = 1 ∧ sleeps tr = 0) :=
  ⟨rfl, by decide, by decide,
    dispatch_refines_spec thirdSucceeds ev1b 5 6 rfl (by decide) (by decide)⟩

/-- C7 (the code departs from the claim): the sample engine rejects the
expression of `evBad` (`AddFunc` reports an error and registers nothing), yet
`Create(evBad)` returns a nil error and stores a map entry for the id. -/
theorem create_drops_addfunc_error :
    (New.Cron.AddFunc sampleValid evBad.Expression evBad).2 = true ∧
    (Create sampleValid New evBad).1 = none ∧
    (Create sampleValid New evBad).2.Cron.entries = [] ∧
    Find (Create sampleValid New evBad).2 evBad.Id = (CronPtr.engine, none) := by
  decide

/-- C8: once `Delete(id)` has returned without error, then after every further
sequence of `Create`, `Update`, `Delete` and `Find` calls that all return, no
tick of the timer engine invokes a callback registered for `id`, and no
registration for `id` is live. -/
theorem no_firing_after_delete (valid : String → Bool) (due : String → Nat → Bool)
    (s s1 s2 : scheduler) (id : Nat) (ops : List Op) (t : Nat)
    (hdel : Delete s id = Res.ret (none, s1)) (hrun : run valid s1 ops = some s2) :
    (∀ en ∈ s2.Cron.tick due t, en.Job.Id ≠ id) ∧ liveRegs s2 id = [] := by
  have hstop : s2.Cron.running = false :=
    run_keeps_stopped valid ops s1 s2 (Delete_ok_stops s s1 id hdel) hrun
  constructor
  · intro en hen
    simp [cron.Cron.tick, hstop] at hen
  · simp [liveRegs, hstop]

theorem no_firing_after_delete_witness :
    Delete reg1 1 = Res.ret (none, regDel) ∧
    run sampleValid regDel [Op.create ev2, Op.find 1] =
      some (Create sampleValid regDel ev2).2 ∧
    (∀ en ∈ (Create sampleValid regDel ev2).2.Cron.tick alwaysDue 5, en.Job.Id ≠ 1) ∧
    liveRegs (Create sampleValid regDel ev2).2 1 = [] :=
  ⟨rfl, rfl, no_firing_after_delete sampleValid alwaysDue reg1 regDel
    (Create sampleValid regDel ev2).2 1 [Op.create ev2, Op.find 1] 5 rfl rfl⟩

/-- C9 (the code departs from the claim): after `New()`, `Create(ev1)` and
`Create(ev2)` the registration for id 2 is live; a successful `Delete(1)` leaves
the result of `Find(2)` as it was, but stops the shared engine, so the
registration for id 2 is no longer live and no tick invokes its callback. -/
theorem delete_stops_other_ids :
    liveRegs reg12 2 = [{ Spec := hourly, Job := ev2 }] ∧
    reg12.Cron.tick alwaysDue 0 =
      [{ Spec := hourly, Job := ev1 }, { Spec := hourly, Job := ev2 }] ∧
    (Delete reg12 1).toOption.map Prod.fst = some none ∧
    (Delete reg12 1).toOption.map (fun r => Find r.2 2) = some (Find reg12 2) ∧
    (Delete reg12 1).toOption.map (fun r => liveRegs r.2 2) = some [] ∧
    (Delete reg12 1).toOption.map (fun r => r.2.Cron.tick alwaysDue 0) = some [] := by
  decide

/-- C10 (the code departs from the claim): after `New()`, `Create(ev1)` and a
`Delete(1)` that returns without error, id 1 has no trigger (`Find(1)` returns
the nil handle and no registration for it is live), yet `Update(ev1b)` does not
fail with `ErrEventNotExist`: its `Delete` finds the key, which was left bound
to nil, and calls `Stop` on the nil pointer, so `Update` panics. Only for an id
with no map entry (`ev2`) does `Update` return `ErrEventNotExist` and the
registry it was given. -/
theorem update_after_delete_panics :
    Delete reg1 ev1b.Id = Res.ret (none, regDel) ∧
    Find regDel ev1b.Id = (CronPtr.nil, none) ∧
    liveRegs regDel ev1b.Id = [] ∧
    Update sampleValid regDel ev1b = Res.nilDeref ∧
    (Update sampleValid regDel ev1b).toOption.map Prod.fst ≠
      some (some Error.ErrEventNotExist) ∧
    Update sampleValid reg1 ev2 = Res.ret (some Error.ErrEventNotExist, reg1) :=
  ⟨rfl, by decide, by decide, Update_of_nil sampleValid regDel ev1b rfl, by decide,
    Update_of_absent sampleValid reg1 ev2 rfl⟩


/-- C11 (the code departs from the claim): for every event `e` and every registry
state, after `Create(e)` the first `Delete(e.Id)` returns without error and
leaves the key bound to the nil pointer, and the second `Delete(e.Id)` finds the
key and calls `Stop` on that nil pointer: it panics instead of returning
`ErrEventNotExist`. -/
theorem second_delete_panics (valid : String → Bool) (s : scheduler) (e : Event) :
    ∃ s1, Delete (Create valid s e).2 e.Id = Res.ret (none, s1) ∧
      s1.Kv e.Id = some CronPtr.nil ∧
      Delete s1 e.Id = Res.nilDeref ∧
      (Delete s1 e.Id).toOption.map Prod.fst ≠ some (some Error.ErrEventNotExist) := by
  refine ⟨{ Kv := fun k => if k = e.Id then some CronPtr.nil else (Create valid s e).2.Kv k,
            Cron := (Create valid s e).2.Cron.Stop }, ?_, ?_, ?_, ?_⟩
  · simp [Delete, Create]
  · simp
  · simp [Delete]
  · simp [Delete, Res.toOption]

/-- C12 (the code departs from the claim): after `New()` and `Create(ev1)` one
registration for id 1 is live; a second `Create` for id 1 is not rejected
(it returns nil) and does not stop the earlier registration: two registrations
for id 1 are live and every tick that is due invokes both callbacks. -/
theorem create_twice_leaves_two_live :
    liveRegs reg1 1 = [{ Spec := hourly, Job := ev1 }] ∧
    (Create sampleValid reg1 ev1b).1 = none ∧
    liveRegs (Create sampleValid reg1 ev1b).2 1 =
      [{ Spec := hourly, Job := ev1 }, { Spec := hourly, Job := ev1b }] ∧
    (Create sampleValid reg1 ev1b).2.Cron.tick alwaysDue 0 =
      [{ Spec := hourly, Job := ev1 }, { Spec := hourly, Job := ev1b }] := by
  decide

/-- C13 as stated fails for a store that returns an event whose expression the
engine rejects: `ScheduleAll` on a fresh registry returns no error and
`Find` succeeds for that event's id, but the engine holds no registration for
it, under either loop semantics. -/
theorem scheduleAll_rejected_event_not_live :
    (ScheduleAll sampleValid false New repoBad).1 = none ∧
    Find (ScheduleAll sampleValid false New repoBad).2 evBad.Id = (CronPtr.engine, none) ∧
    liveRegs (ScheduleAll sampleValid false New repoBad).2 evBad.Id = [] ∧
    liveSpecs (ScheduleAll sampleValid false New repoBad).2 = [ev1.Expression] ∧
    (ScheduleAll sampleValid true New repoBad).1 = none ∧
    Find (ScheduleAll sampleValid true New repoBad).2 evBad.Id = (CronPtr.engine, none) ∧
    liveRegs (ScheduleAll sampleValid true New repoBad).2 evBad.Id = [] ∧
    liveSpecs (ScheduleAll sampleValid true New repoBad).2 = [ev1.Expression] ∧
    evBad.Expression ≠ ev1.Expression := by
  decide

/-- C13, amended: for every list of events returned successfully by the store
whose expressions the engine all accepts, `ScheduleAll` on a freshly constructed
registry returns no error and afterwards `Find(e.Id)` succeeds for every event
`e` of the list, each with a live trigger: the engine is running and holds one
registration per event, in order, on that event's schedule. When each
iteration has its own loop variable, that registration carries the event. -/
theorem scheduleAll_fresh (valid : String → Bool) (sharedVar : Bool) (r : repo.Repo)
    (hok : r.FindEvents.2 = none)
    (hvalid : ∀ e ∈ r.FindEvents.1, valid e.Expression = true) :
    (ScheduleAll valid sharedVar New r).1 = none ∧
    (∀ e ∈ r.FindEvents.1,
      Find (ScheduleAll valid sharedVar New r).2 e.Id = (CronPtr.engine, none)) ∧
    (ScheduleAll valid sharedVar New r).2.Cron.running = true ∧
    liveSpecs (ScheduleAll valid sharedVar New r).2 =
      r.FindEvents.1.map (fun e => e.Expression) ∧
    (∀ e ∈ r.FindEvents.1, e.Expression ∈ liveSpecs (ScheduleAll valid sharedVar New r).2) ∧
    (sharedVar = false → ∀ e ∈ r.FindEvents.1,
      { Spec := e.Expression, Job := e } ∈
        liveRegs (ScheduleAll valid sharedVar New r).2 e.Id) := by
  have hfilter : r.FindEvents.1.filter (fun e => valid e.Expression) = r.FindEvents.1 :=
    List.filter_eq_self.mpr hvalid
  have hrun : (ScheduleAll valid sharedVar New r).2.Cron.running = true := by
    rw [ScheduleAll_running]; rfl
  have hspecs : liveSpecs (ScheduleAll valid sharedVar New r).2 =
      r.FindEvents.1.map (fun e => e.Expression) := by
    simp only [liveSpecs, hrun, if_true]
    rw [ScheduleAll_of_ok valid sharedVar New r hok, ScheduleAll_loop_specs, hfilter]
    rfl
  refine ⟨?_, ?_, hrun, hspecs, ?_, ?_⟩
  · rw [ScheduleAll_of_ok valid sharedVar New r hok]
    exact ScheduleAll_loop_err valid sharedVar _ _ _
  · intro e he
    have hk : (ScheduleAll valid sharedVar New r).2.Kv e.Id = some CronPtr.engine := by
      rw [ScheduleAll_of_ok valid sharedVar New r hok]
      exact ScheduleAll_loop_binds valid sharedVar _ _ _ e he
    simp [Find, hk]
  · intro e he
    rw [hspecs]
    exact List.mem_map_of_mem (fun e => e.Expression) he
  · intro hs e he
    subst hs
    simp only [liveRegs, hrun, if_true]
    rw [ScheduleAll_of_ok valid false New r hok, ScheduleAll_loop_entries, hfilter]
    simp only [List.mem_filter, List.mem_append, List.mem_map, decide_eq_true_eq, and_true]
    right
    exact ⟨e, he, rfl⟩

theorem scheduleAll_fresh_witness :
    repo12.FindEvents.2 = none ∧
    (∀ e ∈ repo12.FindEvents.1, sampleValid e.Expression = true) ∧
    (ScheduleAll sampleValid true New repo12).1 = none ∧
    (∀ e ∈ repo12.FindEvents.1,
      Find (ScheduleAll sampleValid true New repo12).2 e.Id = (CronPtr.engine, none)) ∧
    (ScheduleAll sampleValid true New repo12).2.Cron.running = true ∧
    liveSpecs (ScheduleAll sampleValid true New repo12).2 =
      repo12.FindEvents.1.map (fun e => e.Expression) ∧
    (∀ e ∈ repo12.FindEvents.1,
      e.Expression ∈ liveSpecs (ScheduleAll sampleValid true New repo12).2) ∧
    (true = false → ∀ e ∈ repo12.FindEvents.1,
      { Spec := e.Expression, Job := e } ∈
        liveRegs (ScheduleAll sampleValid true New repo12).2 e.Id) :=
  have hvalid : ∀ e ∈ repo12.FindEvents.1, sampleValid e.Expression = true := by decide
  ⟨rfl, hvalid, scheduleAll_fresh sampleValid true repo12 rfl hvalid⟩

/-- C14: if the store's `FindEvents` query fails with the error `x`, `ScheduleAll`
returns exactly `x` and the registry it was given: nothing is created, the map
and the engine's registrations are as before. -/
theorem scheduleAll_store_error (valid : String → Bool) (sharedVar : Bool) (s : scheduler)
    (r : repo.Repo) (x : Error) (h : r.FindEvents.2 = some x) :
    ScheduleAll valid sharedVar s r = (some x, s) :=
  ScheduleAll_of_err valid sharedVar s r x h

theorem scheduleAll_store_error_witness :
    repoDown.FindEvents.2 = some (Error.repoErr 7) ∧
    ScheduleAll sampleValid true reg1 repoDown = (some (Error.repoErr 7), reg1) :=
  ⟨rfl, scheduleAll_store_error sampleValid true reg1 repoDown (Error.repoErr 7) rfl⟩

/-- C15 (the code departs from the claim): every map access of `Create` and of
`Find` happens under the registry's mutex, and no interleaving of a `Find` and a
`Create` (or of two `Create`s) has one of them access the map while the other
is between its `Lock` and `Unlock`. The map accesses of `Delete` do not happen
under the registry's mutex (its value receiver locks a copy), and there is an
interleaving of a `Delete` and a `Create` in which `Create` writes the map
while `Delete` is between its `Lock` and `Unlock`, both calls running to their
end. -/
theorem delete_locks_a_copy :
    guarded false CreateSteps = true ∧ guarded false FindSteps = true ∧
    guarded false (DeleteSteps true) = false ∧ guarded false (DeleteSteps false) = false ∧
    (∀ sched q, (Par.init FindSteps CreateSteps).exec sched = some q → q.clash = false) ∧
    (∀ sched q, (Par.init CreateSteps CreateSteps).exec sched = some q → q.clash = false) ∧
    ((Par.init (DeleteSteps true) CreateSteps).exec raceSched).map
      (fun p => (p.a, p.b, p.clash)) = some ([], [], true) := by
  refine ⟨by decide, by decide, by decide, by decide, ?_, ?_, by decide⟩
  · intro sched q hex
    exact Par.clashFree_sound sched 7 _ q (by decide) (by decide) hex
  · intro sched q hex
    exact Par.clashFree_sound sched 8 _ q (by decide) (by decide) hex

/-- C16: the engine is running after `New()`, every later `Create` stores the
pointer to that one engine, and once a `Delete` or an `Update` has returned
without error the engine is stopped: after every further sequence of `Create`,
`Update`, `Delete`, `Find` and `ScheduleAll` calls that all return it is still
stopped, no tick invokes a callback and no registration of any id is live. -/
theorem engine_never_restarts (valid : String → Bool) (sharedVar : Bool)
    (due : String → Nat → Bool) (s s1 s2 : scheduler) (cs : List Call) (t : Nat)
    (hstop : (∃ id, Delete s id = Res.ret (none, s1)) ∨
      (∃ e, Update valid s e = Res.ret (none, s1)))
    (hrun : runAll valid sharedVar s1 cs = some s2) :
    New.Cron.running = true ∧
    (∀ e, (Create valid s2 e).2.Kv e.Id = some CronPtr.engine) ∧
    s2.Cron.running = false ∧
    s2.Cron.tick due t = [] ∧
    (∀ id, liveRegs s2 id = []) ∧
    liveSpecs s2 = [] := by
  have h1 : s1.Cron.running = false := by
    rcases hstop with ⟨id, hd⟩ | ⟨e, hu⟩
    · exact Delete_ok_stops s s1 id hd
    · exact Update_ok_stops valid s s1 e hu
  have h2 : s2.Cron.running = false := runAll_keeps_stopped valid sharedVar cs s1 s2 h1 hrun
  refine ⟨rfl, fun e => Create_Kv_self valid s2 e, h2, ?_, ?_, ?_⟩
  · simp [cron.Cron.tick, h2]
  · intro id
    simp [liveRegs, h2]
  · simp [liveSpecs, h2]

theorem engine_never_restarts_witness :
    ((∃ id, Delete reg1 id = Res.ret (none, regDel)) ∨
      (∃ e, Update sampleValid reg1 e = Res.ret (none, regDel))) ∧
    runAll sampleValid true regDel [Call.op (Op.create ev2), Call.scheduleAll repo12] =
      some regReload ∧
    New.Cron.running = true ∧
    (∀ e, (Create sampleValid regReload e).2.Kv e.Id = some CronPtr.engine) ∧
    regReload.Cron.running = false ∧
    regReload.Cron.tick alwaysDue 9 = [] ∧
    (∀ id, liveRegs regReload id = []) ∧
    liveSpecs regReload = [] :=
  ⟨Or.inl ⟨1, rfl⟩, rfl,
    engine_never_restarts sampleValid true alwaysDue reg1 regDel regReload
      [Call.op (Op.create ev2), Call.scheduleAll repo12] 9 (Or.inl ⟨1, rfl⟩) rfl⟩

/-- C17: `Create` never fails: for every event and every registry state it
returns a nil error and binds the event's id in the map. So the error that
`ScheduleAll` returns is the error of the store's query: it is non-nil if and
only if the query failed, and after a successful query every returned event has
its id bound (`Find` succeeds) and the engine has been given every event's
expression, keeping the ones it accepts. -/
theorem create_never_fails (valid : String → Bool) (sharedVar : Bool) (s : scheduler)
    (e : Event) (r : repo.Repo) :
    (Create valid s e).1 = none ∧
    (Create valid s e).2.Kv e.Id = some CronPtr.engine ∧
    (ScheduleAll valid sharedVar s r).1 = r.FindEvents.2 ∧
    ((ScheduleAll valid sharedVar s r).1 ≠ none ↔ r.FindEvents.2 ≠ none) ∧
    (r.FindEvents.2 = none →
      (∀ e1 ∈ r.FindEvents.1,
        (ScheduleAll valid sharedVar s r).2.Kv e1.Id = some CronPtr.engine ∧
        Find (ScheduleAll valid sharedVar s r).2 e1.Id = (CronPtr.engine, none)) ∧
      (ScheduleAll valid sharedVar s r).2.Cron.entries.map (fun en => en.Spec) =
        s.Cron.entries.map (fun en => en.Spec) ++
          (r.FindEvents.1.filter (fun e1 => valid e1.Expression)).map
            (fun e1 => e1.Expression)) := by
  have herr : (ScheduleAll valid sharedVar s r).1 = r.FindEvents.2 := by
    cases h : r.FindEvents.2 with
    | none =>
        rw [ScheduleAll_of_ok valid sharedVar s r h]
        exact ScheduleAll_loop_err valid sharedVar _ _ _
    | some x => rw [ScheduleAll_of_err valid sharedVar s r x h]
  refine ⟨rfl, Create_Kv_self valid s e, herr, by rw [herr], ?_⟩
  intro hok
  rw [ScheduleAll_of_ok valid sharedVar s r hok]
  refine ⟨?_, ScheduleAll_loop_specs valid sharedVar _ _ s⟩
  intro e1 he1
  have hk := ScheduleAll_loop_binds valid sharedVar s.Cron.entries.length r.FindEvents.1 s e1 he1
  exact ⟨hk, by simp [Find, hk]⟩

/-- C18: for every negative `maxRetries = R` (a Go `int`, `-2^63 ≤ R < 0`) and a
delivery that always fails, the run has not returned after `n` attempts for
every `n` up to the wrap-around distance `R + 2^63 + 1`: decrementing does not
reach `retries == 0`. The run returns only after the count has wrapped around,
with `R + 2^64 + 1` attempts in all, more than the cap `R + 1`. -/
theorem negative_retries_exceed_cap (get : Nat → Bool) (e : Event)
    (hfail : ∀ k, get k = false) (hlo : -2 ^ 63 ≤ e.MaxRetries) (hneg : e.MaxRetries < 0) :
    (∀ n : Nat, (n : Int) ≤ e.MaxRetries + 2 ^ 63 + 1 → callback get e n = none) ∧
    (∀ fuel : Nat, e.MaxRetries + 2 ^ 64 + 1 ≤ (fuel : Int) →
      ∃ tr, callback get e fuel = some tr ∧
        (attempts tr : Int) = e.MaxRetries + 2 ^ 64 + 1 ∧
        e.MaxRetries + 1 < (attempts tr : Int)) := by
  constructor
  · intro n hn
    exact runJob_negative_pending get e hfail n 0 e.MaxRetries hlo hneg hn
  · intro fuel hfuel
    obtain ⟨m, hm⟩ : ∃ m : Nat, (m : Int) = e.MaxRetries + 2 ^ 63 :=
      ⟨(e.MaxRetries + 2 ^ 63).toNat, Int.toNat_of_nonneg (by omega)⟩
    have hR : e.MaxRetries = -2 ^ 63 + (m : Int) := by omega
    obtain ⟨tr, htr, ha⟩ :=
      runJob_negative_attempts get e hfail m (by omega) fuel 0 (by omega)
    refine ⟨tr, ?_, ?_, ?_⟩
    · rw [callback, hR]
      exact htr
    · rw [ha]
      push_cast
      omega
    · rw [ha]
      push_cast
      omega

theorem negative_retries_exceed_cap_witness :
    (∀ k, alwaysFail k = false) ∧ -2 ^ 63 ≤ evNeg.MaxRetries ∧ evNeg.MaxRetries < 0 ∧
    (∀ n : Nat, (n : Int) ≤ evNeg.MaxRetries + 2 ^ 63 + 1 →
      callback alwaysFail evNeg n = none) ∧
    (∀ fuel : Nat, evNeg.MaxRetries + 2 ^ 64 + 1 ≤ (fuel : Int) →
      ∃ tr, callback alwaysFail evNeg fuel = some tr ∧
        (attempts tr : Int) = evNeg.MaxRetries + 2 ^ 64 + 1 ∧
        evNeg.MaxRetries + 1 < (attempts tr : Int)) :=
  ⟨fun _ => rfl, by decide, by decide,
    negative_retries_exceed_cap alwaysFail evNeg (fun _ => rfl) (by decide) (by decide)⟩

end Crony
